import Mathlib

set_option maxRecDepth 8000

/-!
Verification model of the rsapar fixed-width parser.

The Rust sources are embedded shallowly:
* `decimal_format.rs` — `DecimalFormat::new`, `pattern_to_regex`,
  `validate_number`.  The `regex` crate is external; the regex strings the
  code emits are parsed here into a small AST (`RE`) and matched directly.
  The AST covers every construct reachable from unquoted pattern characters
  (digit class, optional digit, escaped literals, plain literals, groups,
  postfix `?`); constructs outside this fragment make parsing fail, which
  models a `Regex::new` compilation error.
* `parser.rs` — the record reader `LinesWithSeparator::next` (bytes are `Nat`,
  the UTF-8 decoding step is omitted: records are byte lists) and the
  error-handling skeleton of `Parser::new`.
* `schema.rs` — the schema data model, `validate_cell`, `validate_line`,
  `find_matching_schema_linetype` and the query helpers.  Record text is a
  `String` viewed as a list of code points; the byte offsets of the source
  are modelled as code-point offsets (exact for single-byte text).  `chrono`
  date parsing is external and abstracted as a boolean oracle `dateOk`.
  Rust panics (`todo!`, `unwrap` on `Err`, slice-index panics) are modelled
  by the `Res.abort` outcome.
-/

namespace Rsapar

/-- Regex AST for the fragment emitted by `DecimalFormat::pattern_to_regex`. -/
inductive RE where
  | eps : RE
  | digit : RE
  | anyChar : RE
  | lit : Char → RE
  | seq : RE → RE → RE
  | opt : RE → RE
  | group : RE → RE
deriving Repr, DecidableEq

/-- Backtracking matcher: all remainders of `s` after matching a prefix
    against `r`. -/
def matchR : RE → List Char → List (List Char)
  | RE.eps, s => [s]
  | RE.digit, [] => []
  | RE.digit, c :: rest => if c.isDigit then [rest] else []
  | RE.anyChar, [] => []
  | RE.anyChar, c :: rest => if c = '\n' then [] else [rest]
  | RE.lit _, [] => []
  | RE.lit a, c :: rest => if c = a then [rest] else []
  | RE.seq a b, s => (matchR a s).flatMap (fun s1 => matchR b s1)
  | RE.opt a, s => s :: matchR a s
  | RE.group a, s => matchR a s

/-- Model of `Regex::is_match` on an `^…$`-anchored regex: some branch consumes the
    whole input. -/
def fullMatch (r : RE) (s : List Char) : Bool :=
  (matchR r s).contains []

/-- Atom denoted by an escape `\c` in the emitted regex.  `\d` is the digit
    class; escaped punctuation is a literal; other escaped alphanumerics are
    outside the modelled fragment. -/
def escAtom (c : Char) : Option RE :=
  if c = 'd' then some RE.digit
  else if c.isAlphanum then none
  else some (RE.lit c)

/-- Metacharacters that the modelled fragment rejects when they occur bare
    (they are only reachable from quoted sections of a pattern). -/
def badMeta (c : Char) : Bool :=
  c = '*' || c = '+' || c = '?' || c = '[' || c = ']' || c = '\x7b' ||
  c = '\x7d' || c = '|' || c = '^' || c = '\\'

/-- Recursive-descent parser for the emitted regex body.  Returns the parsed
    sequence and the unconsumed rest; it stops in front of `)` or `$`.
    `none` models a `Regex::new` compilation error.  `fuel` only bounds the
    recursion depth; `length + 1` is always enough. -/
def parseRE : Nat → List Char → Option (RE × List Char)
  | 0, _ => none
  | _ + 1, [] => some (RE.eps, [])
  | _ + 1, ')' :: rest => some (RE.eps, ')' :: rest)
  | _ + 1, '$' :: rest => some (RE.eps, '$' :: rest)
  | fuel + 1, '(' :: rest =>
    match parseRE fuel rest with
    | some (inner, ')' :: rest1) =>
      match rest1 with
      | '?' :: rest2 =>
        (parseRE fuel rest2).map (fun p => (RE.seq (RE.opt (RE.group inner)) p.1, p.2))
      | _ =>
        (parseRE fuel rest1).map (fun p => (RE.seq (RE.group inner) p.1, p.2))
    | _ => none
  | fuel + 1, '\\' :: c :: rest =>
    match escAtom c with
    | none => none
    | some a =>
      match rest with
      | '?' :: rest2 => (parseRE fuel rest2).map (fun p => (RE.seq (RE.opt a) p.1, p.2))
      | _ => (parseRE fuel rest).map (fun p => (RE.seq a p.1, p.2))
  | _ + 1, ['\\'] => none
  | fuel + 1, c :: rest =>
    if badMeta c then none
    else
      let a := if c = '.' then RE.anyChar else RE.lit c
      match rest with
      | '?' :: rest2 => (parseRE fuel rest2).map (fun p => (RE.seq (RE.opt a) p.1, p.2))
      | _ => (parseRE fuel rest).map (fun p => (RE.seq a p.1, p.2))

/-- Compile an emitted regex string `^body$` into the AST.  Mirrors the
    success / failure of `Regex::new` on the reachable fragment. -/
def regexCompile (s : List Char) : Option RE :=
  match s with
  | '^' :: rest =>
    match parseRE (rest.length + 1) rest with
    | some (r, ['$']) => some r
    | _ => none
  | _ => none

/-- Model of `special_chars` of `DecimalFormat::new`. -/
def specialChars : List Char := ['\'', '(', ')', '0', '.', ',', '#', ';', '¤', '%']

/-- The scanning loop of `DecimalFormat::new`: quote tracking, rejection of
    unquoted unknown characters, splitting on unquoted `;`.
    `current` is the pattern being accumulated (the `patterns.last_mut()` of
    the source), `done` the completed ones. -/
def splitPatterns : List Char → Bool → List Char → List (List Char) →
    Except String (List (List Char))
  | [], _, current, done => Except.ok (done ++ [current])
  | c :: rest, inq, current, done =>
    if inq = false ∧ c = '\'' then splitPatterns rest true (current ++ [c]) done
    else if inq = true ∧ c = '\'' then splitPatterns rest false (current ++ [c]) done
    else if inq = false ∧ (specialChars.contains c) = false then
      Except.error ("Invalid character: " ++ toString c)
    else if c = ';' ∧ inq = false then splitPatterns rest inq [] (done ++ [current])
    else splitPatterns rest inq (current ++ [c]) done

/-- The character-translation loop of `DecimalFormat::pattern_to_regex`
    (everything between the `^` and the `$`). -/
def patternToRegexLoop : List Char → Bool → List Char
  | [], _ => []
  | c :: rest, inq =>
    if inq = false ∧ c = '\'' then patternToRegexLoop rest true
    else if inq = true ∧ c = '\'' then patternToRegexLoop rest false
    else if inq = true then c :: patternToRegexLoop rest true
    else if c = '0' then '\\' :: 'd' :: patternToRegexLoop rest inq
    else if c = '#' then '\\' :: 'd' :: '?' :: patternToRegexLoop rest inq
    else if c = ',' then '\\' :: ',' :: patternToRegexLoop rest inq
    else if c = '.' then '\\' :: '.' :: patternToRegexLoop rest inq
    else if c = ';' then '\\' :: ';' :: patternToRegexLoop rest inq
    else if c = '¤' then '\\' :: '$' :: patternToRegexLoop rest inq
    else c :: patternToRegexLoop rest inq

/-- Model of `DecimalFormat::pattern_to_regex`. -/
def patternToRegex (p : List Char) : List Char :=
  '^' :: (patternToRegexLoop p false ++ ['$'])

/-- A compiled decimal format: the two regexes of the Rust struct. -/
structure DecimalFormat where
  positive_regex : RE
  negative_regex : RE
deriving Repr, DecidableEq

/-- Model of `DecimalFormat::new`.  The process-wide cache of the source is a pure
    memoisation of this function and is not modelled. -/
def DecimalFormat.new (pattern : List Char) : Except String DecimalFormat :=
  match splitPatterns pattern false [] [] with
  | Except.error e => Except.error e
  | Except.ok patterns =>
    if patterns.length > 2 then Except.error "Invalid pattern"
    else
      match patterns with
      | [] => Except.error "Missing positive pattern"
      | positive :: restPats =>
        let negative : List Char :=
          match restPats with
          | p :: _ => '-' :: p
          | [] => '-' :: positive
        match regexCompile (patternToRegex positive) with
        | none => Except.error "Invalid regex pattern"
        | some pos =>
          match regexCompile (patternToRegex negative) with
          | none => Except.error "Invalid regex pattern"
          | some neg => Except.ok ⟨pos, neg⟩

/-- Model of `DecimalFormat::validate_number`. -/
def DecimalFormat.validate_number (f : DecimalFormat) (input : List Char) :
    Except String Unit :=
  if fullMatch f.positive_regex input || fullMatch f.negative_regex input then
    Except.ok ()
  else Except.error "Input does not match pattern"


/-! ## Record reader (`parser.rs`, `LinesWithSeparator`) -/

/-- One escape of the separator re-scan in `LinesWithSeparator::next`:
    `\n`, `\r`, `\t`, `\f`, `\0` expand to the control byte, any other
    escaped character to `ch as u8`. -/
def escByte (c : Char) : Nat :=
  if c = 'n' then 10
  else if c = 'r' then 13
  else if c = 't' then 9
  else if c = 'f' then 12
  else if c = '0' then 0
  else c.toNat % 256

/-- The separator byte expansion performed at the top of every
    `LinesWithSeparator::next` call; a trailing lone backslash is dropped. -/
def expandSeparator : List Char → List Nat
  | [] => []
  | ['\\'] => []
  | '\\' :: c :: rest => escByte c :: expandSeparator rest
  | c :: rest => (c.toNat % 256) :: expandSeparator rest

/-- The byte-reading loop of `LinesWithSeparator::next`.  `input` is what the
    reader has not yet delivered (empty = EOF), `buf` the scratch buffer,
    `i` the match index.  Returns the buffer at loop exit (already truncated
    on a separator match), the remaining input, and whether EOF was hit. -/
def readLoop (sep : List Nat) : List Nat → List Nat → Nat → List Nat × List Nat × Bool
  | [], buf, _ => (buf, [], true)
  | b :: rest, buf, i =>
    if b = sep.getD i 0 then
      if i + 1 = sep.length then
        ((buf ++ [b]).take (buf.length + 1 - sep.length), rest, false)
      else
        readLoop sep rest (buf ++ [b]) (i + 1)
    else
      readLoop sep rest (buf ++ [b]) 0

/-- Iterator state of `LinesWithSeparator` (reader position, scratch buffer,
    `finished` flag). -/
structure LinesState where
  input : List Nat
  buf : List Nat
  finished : Bool
deriving Repr, DecidableEq

/-- Model of `LinesWithSeparator::next`: `none` models `Iterator::next` returning
    `None`.  Records are emitted as byte lists (the UTF-8 decoding of the
    source is external to this model). -/
def nextRecord (sep : List Nat) (s : LinesState) : Option (List Nat) × LinesState :=
  if s.finished = true ∧ s.buf = [] then (none, s)
  else
    match readLoop sep s.input s.buf 0 with
    | (buf1, rest, fin) => (some buf1, ⟨rest, [], s.finished || fin⟩)

/-- Pull records until the iterator reports exhaustion.  `fuel` bounds the
    number of pulls; `input.length + 2` pulls always reach exhaustion. -/
def recordsFuel (sep : List Nat) : Nat → LinesState → List (List Nat)
  | 0, _ => []
  | fuel + 1, s =>
    match nextRecord sep s with
    | (none, _) => []
    | (some r, s1) => r :: recordsFuel sep fuel s1

/-- All records the reader emits for a byte stream. -/
def records (sep : List Nat) (input : List Nat) : List (List Nat) :=
  recordsFuel sep (input.length + 2) ⟨input, [], false⟩

/-- Modelled from the spec: the leftmost occurrence of `sep` in `l`, as
    `(bytes before it, bytes after it)`. -/
def findSep (sep : List Nat) : List Nat → Option (List Nat × List Nat)
  | [] => none
  | b :: rest =>
    if sep.isPrefixOf (b :: rest) then some ([], (b :: rest).drop sep.length)
    else
      match findSep sep rest with
      | none => none
      | some (p, q) => some (b :: p, q)

/-- Modelled from the spec: split a byte stream at every occurrence of the
    separator, scanning left to right (`n` separators yield `n + 1` parts).
    `fuel` bounds recursion; `l.length + 1` always suffices. -/
def splitSpecFuel (sep : List Nat) : Nat → List Nat → List (List Nat)
  | 0, l => [l]
  | fuel + 1, l =>
    match findSep sep l with
    | none => [l]
    | some (p, q) => p :: splitSpecFuel sep fuel q

/-- Modelled from the spec: "the emitted records are exactly the input split
    at every occurrence" of the separator. -/
def splitSpec (sep : List Nat) (l : List Nat) : List (List Nat) :=
  splitSpecFuel sep (l.length + 1) l

/-- No carriage-return byte is immediately followed by another one. -/
def noCRCR : List Nat → Bool
  | [] => true
  | [_] => true
  | a :: b :: rest => (decide ¬(a = 13 ∧ b = 13)) && noCRCR (b :: rest)

/-! ## Schema model and record validator (`schema.rs`) -/

/-- Outcome of running a piece of Rust code that may panic (`todo!`,
    `unwrap` on `None`/`Err`, slice-index panic): `abort` is the panic. -/
inductive Res (α : Type) where
  | abort : Res α
  | val : α → Res α
deriving Repr, DecidableEq

/-- Model of `Format`: the compiled regex of a `string` format is external
    (`regex::Regex`) and is abstracted as a boolean matcher. -/
structure Format where
  ctype : String
  pattern : String
  regex_pattern : Option (String → Bool)

/-- Model of `Cell`.  The Rust field `end` is called `endIdx` (`end` is reserved). -/
structure Cell where
  name : String
  length : Nat
  start : Nat
  endIdx : Nat
  format : Option Format
  linecondition_type : Option String
  linecondition_pattern : Option String
  alignment : String
  padcharacter : String

/-- Model of `Line`. -/
structure Line where
  linetype : String
  maxlength : Nat
  occurs : String
  cell : List Cell
  minlength : Nat
  padcharacter : String

/-- Model of `FixedWidthSchema`. -/
structure FixedWidthSchema where
  lineseparator : String
  lines : List Line

/-- Model of `CsvSchema` (reserved, never constructed by the loader). -/
structure CsvSchema where
  lines : List Line

/-- Model of `Schema`. -/
structure Schema where
  fixedwidthschema : Option FixedWidthSchema
  csvschema : Option CsvSchema

/-- Model of `ProcessedLineOk`: `cell_values` is the `IndexMap` as an ordered
    association list. -/
structure ProcessedLineOk where
  line_number : Nat
  cell_values : List (String × String)
  linetype : String
deriving Repr, DecidableEq

/-- Model of `ProcessedLineError`. -/
structure ProcessedLineError where
  line_number : Nat
  message : String
deriving Repr, DecidableEq

/-- Model of `str::get(start..end)`: the checked sub-slice, `none` when the range is
    invalid.  Byte offsets are modelled as code-point offsets. -/
def sliceGet (text : String) (s e : Nat) : Option String :=
  if s ≤ e ∧ e ≤ text.length then some (String.mk ((text.toList.drop s).take (e - s)))
  else none

/-- Model of `&text[start..end]` without the bounds check (the caller models the
    panic); total by clamping. -/
def sliceIdx (text : String) (s e : Nat) : String :=
  String.mk ((text.toList.drop s).take (e - s))

/-- Model of `str::trim_start_matches` with a `&[char]` pattern: strip every leading
    character that occurs in `pad`. -/
def trimStartMatches (pad : String) (v : String) : String :=
  String.mk (v.toList.dropWhile (fun c => pad.toList.contains c))

/-- Model of `str::trim_end_matches` with a `&[char]` pattern. -/
def trimEndMatches (pad : String) (v : String) : String :=
  String.mk ((v.toList.reverse.dropWhile (fun c => pad.toList.contains c)).reverse)

/-- Model of `str::trim_matches` with a `&[char]` pattern: both sides. -/
def trimMatches (pad : String) (v : String) : String :=
  trimEndMatches pad (trimStartMatches pad v)

/-- Model of `IndexMap::insert`: an existing key keeps its position and gets the new
    value, a new key is appended. -/
def indexInsert (m : List (String × String)) (k v : String) : List (String × String) :=
  if m.any (fun kv => kv.1 == k) then
    m.map (fun kv => if kv.1 == k then (kv.1, v) else kv)
  else m ++ [(k, v)]

/-- The alignment defaulting at the top of `Schema::validate_cell`'s format
    branch: an empty alignment becomes `right` for `number` formats and
    `left` otherwise. -/
def effectiveAlignment (cell : Cell) (format : Format) : String :=
  if cell.alignment = "" ∧ format.ctype = "number" then "right"
  else if cell.alignment = "" then "left"
  else cell.alignment

/-- The trimming `match` of `Schema::validate_cell`: left-trim for `right`,
    right-trim for `left`, both sides for `center`, untouched otherwise. -/
def trimByAlignment (al pad v : String) : String :=
  if al = "right" then trimStartMatches pad v
  else if al = "left" then trimEndMatches pad v
  else if al = "center" then trimMatches pad v
  else v

/-- Model of `Schema::validate_cell`.  `dateOk value pattern` abstracts
    `NaiveDate::parse_from_str(value, pattern).is_ok()`.  The
    `DecimalFormat::new(..).unwrap()` of the number branch panics on a bad
    pattern: `Res.abort`. -/
def validateCell (dateOk : String → String → Bool) (cell : Cell)
    (line_text : String) : Res (Except String String) :=
  match sliceGet line_text cell.start cell.endIdx with
  | none => Res.val (Except.error ("[err:003]|" ++ cell.name ++ "|range|invalid [" ++
      toString cell.start ++ "]-[" ++ toString cell.endIdx ++ "]"))
  | some cell_value =>
    match cell.format with
    | none => Res.val (Except.ok cell_value)
    | some format =>
      let trimmed :=
        trimByAlignment (effectiveAlignment cell format) cell.padcharacter cell_value
      if format.ctype = "date" then
        Res.val (if dateOk trimmed format.pattern then Except.ok trimmed
          else Except.error ("[err:004]|" ++ cell.name ++ "|" ++ format.ctype ++
            "|pattern:[" ++ format.pattern ++ "]"))
      else if format.ctype = "string" then
        match format.regex_pattern with
        | some re => Res.val (if re trimmed then Except.ok trimmed
            else Except.error ("[err:005]|" ++ cell.name ++ "|" ++ format.ctype ++
              "|pattern:[" ++ format.pattern ++ "]"))
        | none => Res.val (Except.error ("[err:006]|" ++ cell.name ++ "|" ++
            format.ctype ++ "|pattern:[" ++ format.pattern ++ "]"))
      else if format.ctype = "number" then
        match DecimalFormat.new format.pattern.toList with
        | Except.error _ => Res.abort
        | Except.ok fmt =>
          Res.val (match fmt.validate_number trimmed.toList with
            | Except.ok _ => Except.ok trimmed
            | Except.error _ => Except.error ("[err:007]|" ++ cell.name ++ "|" ++
                format.ctype ++ "|pattern:[" ++ format.pattern ++ "]"))
      else
        Res.val (Except.ok cell_value)

/-- Model of `Schema::get_line_conditions` on the fixed-width binding. -/
def FixedWidthSchema.getLineConditionsF (fws : FixedWidthSchema) :
    List (String × List Cell) :=
  fws.lines.filterMap (fun line =>
    let cellsWith := line.cell.filter (fun cell => cell.linecondition_pattern.isSome)
    if cellsWith.isEmpty then none else some (line.linetype, cellsWith))

/-- Model of `Schema::get_first_line_without_condition` on the fixed-width binding. -/
def FixedWidthSchema.getFirstLineWithoutConditionF (fws : FixedWidthSchema) :
    Option (String × Line) :=
  let lwc := fws.lines.filter (fun line =>
    line.cell.all (fun cell => cell.linecondition_pattern.isNone))
  if lwc.length > 1 then none
  else lwc.head?.map (fun line => (line.linetype, line))

/-- Model of `Schema::get_line_by_linetype` on the fixed-width binding. -/
def FixedWidthSchema.getLineByLinetypeF (fws : FixedWidthSchema) (lt : String) :
    Option Line :=
  fws.lines.find? (fun line => line.linetype == lt)

/-- Model of `Schema::get_binding`: panics when no fixed-width schema is present. -/
def Schema.getBinding (s : Schema) : Res FixedWidthSchema :=
  match s.fixedwidthschema with
  | some fws => Res.val fws
  | none => Res.abort

/-- Model of `Schema::get_schema_type`: `todo!` (panic) on the unimplemented CSV side. -/
def Schema.getSchemaTypeR (s : Schema) : Res String :=
  if s.fixedwidthschema.isSome then Res.val "fixedwidthschema" else Res.abort

/-- Model of `Schema::get_line_conditions`. -/
def Schema.getLineConditionsR (s : Schema) : Res (List (String × List Cell)) :=
  match s.getBinding with
  | Res.abort => Res.abort
  | Res.val fws => Res.val fws.getLineConditionsF

/-- One iteration of the conditioned-cell loop in
    `find_matching_schema_linetype`: the direct slice `&line_text[start..end]`
    panics on an invalid range; a failed format validation leaves
    `line_condition_met` unchanged; an unsupported condition type or a
    missing pattern panics; otherwise `line_condition_met` is overwritten. -/
def condMetCell (dateOk : String → String → Bool) (line_text : String)
    (met : Bool) (c : Cell) : Res Bool :=
  if c.start ≤ c.endIdx ∧ c.endIdx ≤ line_text.length then
    let cell_value := sliceIdx line_text c.start c.endIdx
    match validateCell dateOk c line_text with
    | Res.abort => Res.abort
    | Res.val (Except.error _) => Res.val met
    | Res.val (Except.ok _) =>
      if c.linecondition_type = none ∨ c.linecondition_type = some "string" then
        match c.linecondition_pattern with
        | some p => Res.val (cell_value == p)
        | none => Res.abort
      else Res.abort
  else Res.abort

/-- The conditioned-cell loop over one candidate's cells. -/
def condMetCells (dateOk : String → String → Bool) (line_text : String) :
    List Cell → Bool → Res Bool
  | [], met => Res.val met
  | c :: cs, met =>
    match condMetCell dateOk line_text met c with
    | Res.abort => Res.abort
    | Res.val met1 => condMetCells dateOk line_text cs met1

/-- The candidate loop of `find_matching_schema_linetype`: the final
    `match_line_name` (`""` when no candidate matched). -/
def findMatchLoop (dateOk : String → String → Bool) (line_text : String) :
    List (String × List Cell) → Res String
  | [] => Res.val ""
  | (line_name, cells) :: rest =>
    match condMetCells dateOk line_text cells false with
    | Res.abort => Res.abort
    | Res.val true => Res.val line_name
    | Res.val false => findMatchLoop dateOk line_text rest

/-- Model of `Schema::find_matching_schema_linetype`. -/
def findMatchingSchemaLinetype (dateOk : String → String → Bool) (s : Schema)
    (line_text : String) (conds : List (String × List Cell)) :
    Res (Option (String × Line)) :=
  match findMatchLoop dateOk line_text conds with
  | Res.abort => Res.abort
  | Res.val n =>
    if n = "" then
      match s.getBinding with
      | Res.abort => Res.abort
      | Res.val fws => Res.val fws.getFirstLineWithoutConditionF
    else
      match s.getBinding with
      | Res.abort => Res.abort
      | Res.val fws => Res.val ((fws.getLineByLinetypeF n).map (fun line => (n, line)))

/-- The per-cell loop of `validate_line`: insert values in cell order, stop
    at the first error. -/
def processCells (dateOk : String → String → Bool) (line_text : String) :
    List Cell → List (String × String) → Res (Except String (List (String × String)))
  | [], acc => Res.val (Except.ok acc)
  | c :: cs, acc =>
    match validateCell dateOk c line_text with
    | Res.abort => Res.abort
    | Res.val (Except.ok v) => processCells dateOk line_text cs (indexInsert acc c.name v)
    | Res.val (Except.error e) => Res.val (Except.error e)

/-- Model of `Schema::validate_line`.  The `line_text.len()` of the source is a byte
    length; here it is the code-point length (exact for single-byte text). -/
def validateLine (dateOk : String → String → Bool) (s : Schema)
    (line_number : Nat) (line_text : String) :
    Res (Except ProcessedLineError ProcessedLineOk) :=
  match s.getLineConditionsR with
  | Res.abort => Res.abort
  | Res.val conds =>
    match s.getSchemaTypeR with
    | Res.abort => Res.abort
    | Res.val t =>
      if t = "fixedwidthschema" then
        match findMatchingSchemaLinetype dateOk s line_text conds with
        | Res.abort => Res.abort
        | Res.val none => Res.val (Except.error
            ⟨line_number, "[err:001]|line|no match found for schema line type"⟩)
        | Res.val (some (linetype, match_line)) =>
          if match_line.maxlength > 0 ∧ line_text.length ≠ match_line.maxlength then
            Res.val (Except.error ⟨line_number,
              "[err:002]|line|maxlength|the line has length " ++
              toString line_text.length ++ " but was expected " ++
              toString match_line.maxlength⟩)
          else
            match processCells dateOk line_text match_line.cell [] with
            | Res.abort => Res.abort
            | Res.val (Except.error e) => Res.val (Except.error ⟨line_number, e⟩)
            | Res.val (Except.ok cvs) => Res.val (Except.ok ⟨line_number, cvs, linetype⟩)
      else Res.abort

/-! ## Parser construction (`parser.rs`, `Parser::new`) -/

/-- Model of `ParserConfig`. -/
structure ParserConfig where
  file_path : String
  file_schema : String

/-- Modelled from the spec: opening the data file and loading the schema are
    I/O, so their outcomes are passed in as arguments.  `Parser::new` runs
    `todo!("Handle error: ..")` — a panic, `Res.abort` — on either failure,
    and otherwise yields the parser's schema. -/
def parserNew (openResult : Except String Unit)
    (schemaResult : Except String Schema) : Res Schema :=
  match openResult with
  | Except.error _ => Res.abort
  | Except.ok _ =>
    match schemaResult with
    | Except.error _ => Res.abort
    | Except.ok schema => Res.val schema


/-! ## Reference definitions written from the spec's words (for refinement
    claims; each is compared against the embedded source functions above) -/

/-- Does `pattern` compile and accept `input`?  (`false` also when the
    pattern fails to compile.) -/
def checkPat (p input : String) : Bool :=
  match DecimalFormat.new p.toList with
  | Except.ok f => (f.validate_number input.toList).isOk
  | Except.error _ => false

/-- Modelled from the spec (§4.4): the effective alignment — the explicit
    attribute if non-empty, else `right` for number-format cells, else
    `left`. -/
def specAlignment (c : Cell) : String :=
  if c.alignment ≠ "" then c.alignment
  else if (match c.format with | some f => f.ctype == "number" | none => false) then "right"
  else "left"

/-- Modelled from the spec (§4.4): trim the value by the cell's
    `padcharacter` code points — left-trim for `right` alignment, right-trim
    for `left`, both sides for `center`. -/
def specTrim (c : Cell) (v : String) : String :=
  if specAlignment c = "right" then trimStartMatches c.padcharacter v
  else if specAlignment c = "left" then trimEndMatches c.padcharacter v
  else trimMatches c.padcharacter v

/-- Modelled from the spec (§4.4): the extracted substring with padding
    trimmed according to the effective alignment. -/
def specTrimmedValue (c : Cell) (text : String) : String :=
  specTrim c (sliceIdx text c.start c.endIdx)

/-- The per-cell value C1 (amended) predicts: the trimmed substring for
    cells whose format type is `date`, `string` or `number`; the raw
    substring for cells without a format. -/
def specCellValue (c : Cell) (text : String) : String :=
  match c.format with
  | some f =>
    if f.ctype = "date" ∨ f.ctype = "string" ∨ f.ctype = "number" then
      specTrimmedValue c text
    else sliceIdx text c.start c.endIdx
  | none => sliceIdx text c.start c.endIdx

/-- Modelled from the spec (§4.4 step 1): does the cell's format validation
    pass on this record? -/
def specFormatPasses (dateOk : String → String → Bool) (text : String)
    (c : Cell) : Bool :=
  match validateCell dateOk c text with
  | Res.val (Except.ok _) => true
  | _ => false

/-- Modelled from the spec (§4.4, line-type selection): the final
    `line_condition_met` of a candidate — decided by the last conditioned
    cell whose format validation passes (`false` if none passes). -/
def specCondMet (dateOk : String → String → Bool) (text : String)
    (cells : List Cell) : Bool :=
  match (cells.filter (specFormatPasses dateOk text)).getLast? with
  | some c => sliceIdx text c.start c.endIdx == c.linecondition_pattern.getD ""
  | none => false

/-- Modelled from the spec: the first candidate, in schema order, whose
    final `line_condition_met` is true. -/
def specFirstMet (dateOk : String → String → Bool) (text : String)
    (conds : List (String × List Cell)) : Option String :=
  (conds.find? (fun nc => specCondMet dateOk text nc.2)).map (fun nc => nc.1)


/-- The characters whose unquoted emission is a parseable regex atom: the
    literal `-` prefix plus the digit-oriented special characters. -/
def allowedEmit : List Char := ['-', '0', '.', ',', '#', '¤', '%']

/-- Modelled from the spec: the pattern contains, outside quotes, a
    character that is not one of the recognized special characters. -/
def hasInvalidChar : List Char → Bool → Bool
  | [], _ => false
  | c :: rest, inq =>
    if inq = false ∧ c = '\'' then hasInvalidChar rest true
    else if inq = true ∧ c = '\'' then hasInvalidChar rest false
    else if inq = false ∧ (specialChars.contains c) = false then true
    else hasInvalidChar rest inq

/-- Modelled from the spec: the number of unquoted `;` separators. -/
def unquotedSemis : List Char → Bool → Nat
  | [], _ => 0
  | c :: rest, inq =>
    if inq = false ∧ c = '\'' then unquotedSemis rest true
    else if inq = true ∧ c = '\'' then unquotedSemis rest false
    else if c = ';' ∧ inq = false then 1 + unquotedSemis rest inq
    else unquotedSemis rest inq

/-! ## Concrete schemas for witnesses and counterexamples -/

/-- A formatless cell covering characters 0–5, empty alignment, space pad. -/
def cellNoFormat : Cell := ⟨"X", 5, 0, 5, none, none, none, "", " "⟩

/-- A schema line holding only `cellNoFormat`, without line conditions. -/
def lineNoFormat : Line := ⟨"t", 0, "", [cellNoFormat], 0, " "⟩

/-- A schema whose only line is `lineNoFormat`. -/
def schemaNoFormat : Schema := ⟨some ⟨"\n", [lineNoFormat]⟩, none⟩

/-- A line with a formatless cell `X` (chars 0–2) and a string-format cell
    `Y` (chars 2–5) whose regex accepts everything. -/
def lineXY : Line :=
  ⟨"t", 0, "", [⟨"X", 2, 0, 2, none, none, none, "", " "⟩,
    ⟨"Y", 3, 2, 5, some ⟨"string", "p", some (fun _ => true)⟩, none, none, "", " "⟩],
    0, " "⟩

/-- A schema whose only line is `lineXY`. -/
def schemaXY : Schema := ⟨some ⟨"\n", [lineXY]⟩, none⟩

/-- A cell carrying a line condition `"H"` on character 0. -/
def cellCondH : Cell := ⟨"T", 1, 0, 1, none, none, some "H", "", " "⟩

/-- A conditioned header line named `"h"`. -/
def lineH : Line := ⟨"h", 0, "", [cellCondH], 0, " "⟩

/-- An unconditioned line named `"d"`. -/
def lineD : Line := ⟨"d", 0, "", [⟨"B", 1, 0, 1, none, none, none, "", " "⟩], 0, " "⟩

/-- A second unconditioned line named `"e"`. -/
def lineE : Line := ⟨"e", 0, "", [⟨"C", 1, 0, 1, none, none, none, "", " "⟩], 0, " "⟩

/-- Schema with the conditioned header and one default line. -/
def schemaHD : Schema := ⟨some ⟨"\n", [lineH, lineD]⟩, none⟩

/-- Schema with the conditioned header and two unconditioned lines — more
    than one candidate default. -/
def schemaHDE : Schema := ⟨some ⟨"\n", [lineH, lineD, lineE]⟩, none⟩

/-- A conditioned line whose `linetype` is the empty string. -/
def lineEmptyName : Line := ⟨"", 0, "", [cellCondH], 0, " "⟩

/-- Schema whose only line is the empty-named conditioned line. -/
def schemaEmptyName : Schema := ⟨some ⟨"\n", [lineEmptyName]⟩, none⟩

/-! ## Claim theorems -/

set_option maxHeartbeats 2000000 in
theorem parseRE_lit_step {c : Char} (hbad : badMeta c = false) (hdot : c ≠ '.')
    (hc1 : c ≠ ')') (hc2 : c ≠ '$') (hc3 : c ≠ '(') (hc4 : c ≠ '\\')
    {h1 : Char} (hq : h1 ≠ '?') (t1 : List Char) (f : Nat) :
    parseRE (f + 1) (c :: h1 :: t1) =
      (parseRE f (h1 :: t1)).map (fun p => (RE.seq (RE.lit c) p.1, p.2)) := by
  rw [parseRE.eq_def]
  split
  · omega
  · simp_all
  · simp_all
  · simp_all
  · simp_all
  · simp_all
  · simp_all
  · next g1 g2 fl ch tl i1 i2 i3 i4 i5 hfe hle =>
    injection hle with h5 h6
    subst h5
    subst h6
    obtain rfl : fl = f := by omega
    rw [if_neg (by simp [hbad])]
    dsimp only []
    rw [if_neg hdot]
    split
    · next rest2 hq2 =>
      exfalso
      apply hq
      injection hq2
    · rfl

/-- C3: `DecimalFormat::validate_number` returns `Ok` on an input iff the
    input matches the compiled positive regex or the compiled negative
    regex; for the pattern `"0,##0.00;(#,##0.000)"` validation accepts
    `"2,234.56"` and `"-1,234.560"` and rejects `"1234.56"` and `"1234"`. -/
theorem c3_validate_number_iff_and_examples :
    (∀ (f : DecimalFormat) (s : List Char),
      f.validate_number s = Except.ok () ↔
        (fullMatch f.positive_regex s = true ∨ fullMatch f.negative_regex s = true)) ∧
    (DecimalFormat.new ("0,##0.00;(#,##0.000)".toList)).isOk = true ∧
    checkPat "0,##0.00;(#,##0.000)" "2,234.56" = true ∧
    checkPat "0,##0.00;(#,##0.000)" "-1,234.560" = true ∧
    checkPat "0,##0.00;(#,##0.000)" "1234.56" = false ∧
    checkPat "0,##0.00;(#,##0.000)" "1234" = false := by
  refine ⟨fun f s => ?_, by decide, by decide, by decide, by decide, by decide⟩
  cases hp : fullMatch f.positive_regex s <;>
    cases hn : fullMatch f.negative_regex s <;>
      simp [DecimalFormat.validate_number, hp, hn]

/-- C10: universally, whenever `DecimalFormat::new` splits a pattern at an
    unquoted `;` into a positive and an explicit negative sub-pattern, the
    compiled negative regex is the one compiled from that sub-pattern
    prefixed with a literal `-`; the emitted negative regex text is literally
    `-` followed by the translated sub-pattern; unquoted `(` and `)` are
    copied into the regex unescaped by the catch-all arm of
    `pattern_to_regex` (quoted ones verbatim as well); a regex group matches
    exactly what its body matches, consuming no literal parenthesis; and
    every input accepted by such a negative regex whose translated
    sub-pattern does not begin with `?` must start with `-`, even when the
    pattern supplies its own sign syntax such as parentheses.  Concretely,
    for `"0;(0)"` the negative AST is `- ( group \d )`, the emitted negative
    regex text is `^-(\d)$`, and validation accepts `"-5"` but rejects
    `"(5)"` and `"-(5)"`. -/
theorem c10_negative_prefix_and_group :
    (∀ (pattern positive negPat : List Char) (f : DecimalFormat),
      splitPatterns pattern false [] [] = Except.ok [positive, negPat] →
      DecimalFormat.new pattern = Except.ok f →
      regexCompile (patternToRegex ('-' :: negPat)) = some f.negative_regex) ∧
    (∀ negPat : List Char,
      patternToRegex ('-' :: negPat) =
        '^' :: '-' :: (patternToRegexLoop negPat false ++ ['$'])) ∧
    (∀ (rest : List Char) (inq : Bool),
      patternToRegexLoop ('(' :: rest) inq = '(' :: patternToRegexLoop rest inq ∧
      patternToRegexLoop (')' :: rest) inq = ')' :: patternToRegexLoop rest inq) ∧
    (∀ (r : RE) (s : List Char), matchR (RE.group r) s = matchR r s) ∧
    (∀ (negPat : List Char) (r : RE) (s : List Char),
      (patternToRegexLoop negPat false).head? ≠ some '?' →
      regexCompile (patternToRegex ('-' :: negPat)) = some r →
      fullMatch r s = true → ∃ t, s = '-' :: t) ∧
    DecimalFormat.new ("0;(0)".toList) =
      Except.ok ⟨RE.seq RE.digit RE.eps,
        RE.seq (RE.lit '-') (RE.seq (RE.group (RE.seq RE.digit RE.eps)) RE.eps)⟩ ∧
    patternToRegex ('-' :: "(0)".toList) = "^-(\\d)$".toList ∧
    checkPat "0;(0)" "-5" = true ∧
    checkPat "0;(0)" "(5)" = false ∧
    checkPat "0;(0)" "-(5)" = false := by
  refine ⟨?_, fun negPat => rfl, ?_, fun r s => rfl, ?_,
    by rfl, by decide, by decide, by decide, by decide⟩
  · intro pattern positive negPat f hsplit hnew
    rw [DecimalFormat.new, hsplit] at hnew
    split at hnew
    next e heq => exact absurd heq (by simp)
    next patterns heq =>
    injection heq with heq1
    subst heq1
    rw [if_neg (by simp)] at hnew
    split at hnew
    next heq2 => exact absurd heq2 (by simp)
    next pos0 rest0 heq2 =>
    injection heq2 with heq3 heq4
    subst heq3
    subst heq4
    cases hp : regexCompile (patternToRegex positive) with
    | none => rw [hp] at hnew; exact absurd hnew (by simp)
    | some pos =>
      rw [hp] at hnew
      dsimp only [] at hnew
      cases hn : regexCompile (patternToRegex ('-' :: negPat)) with
      | none => rw [hn] at hnew; exact absurd hnew (by simp)
      | some neg =>
        rw [hn] at hnew
        dsimp only [] at hnew
        injection hnew with h1
        rw [← h1]
  · intro rest inq
    cases inq <;> exact ⟨rfl, rfl⟩
  · intro negPat r s hq hcomp hmatch
    obtain ⟨h1, t1, hbody, hq1⟩ : ∃ h1 t1,
        patternToRegexLoop negPat false ++ ['$'] = h1 :: t1 ∧ h1 ≠ '?' := by
      cases hl : patternToRegexLoop negPat false with
      | nil => exact ⟨'$', [], rfl, by decide⟩
      | cons h t =>
        refine ⟨h, t ++ ['$'], rfl, fun hcon => ?_⟩
        rw [hl, hcon] at hq
        exact hq rfl
    have hpat : patternToRegex ('-' :: negPat) =
        '^' :: '-' :: (patternToRegexLoop negPat false ++ ['$']) := rfl
    rw [hpat, hbody] at hcomp
    have h3 : regexCompile ('^' :: '-' :: h1 :: t1) =
        (match parseRE (('-' :: h1 :: t1).length + 1) ('-' :: h1 :: t1) with
        | some (r0, ['$']) => some r0
        | _ => none) := rfl
    rw [h3] at hcomp
    simp only [List.length_cons] at hcomp
    rw [parseRE_lit_step (by decide) (by decide) (by decide) (by decide) (by decide)
      (by decide) hq1 t1 (t1.length + 1 + 1)] at hcomp
    cases hp : parseRE (t1.length + 1 + 1) (h1 :: t1) with
    | none => rw [hp] at hcomp; exact absurd hcomp (by simp)
    | some pr =>
      obtain ⟨q, rest2⟩ := pr
      rw [hp] at hcomp
      simp only [Option.map_some'] at hcomp
      split at hcomp
      · next r0 heqa =>
        injection heqa with heqb
        injection heqb with hr0 hrest
        injection hcomp with hcomp1
        rw [← hcomp1, ← hr0] at hmatch
        cases s with
        | nil => simp [fullMatch, matchR] at hmatch
        | cons c t =>
          by_cases hc : c = '-'
          · exact ⟨t, by rw [hc]⟩
          · simp [fullMatch, matchR, hc] at hmatch
      · exact absurd hcomp (by simp)

/-- Witness for C10: the universal parts applied to the concrete pattern
    `"0;(0)"` and the concrete accepted input `"-5"`. -/
theorem c10_negative_prefix_and_group_witness :
    splitPatterns ("0;(0)".toList) false [] [] = Except.ok [['0'], ['(', '0', ')']] ∧
    regexCompile (patternToRegex ('-' :: ['(', '0', ')'])) =
      some (RE.seq (RE.lit '-') (RE.seq (RE.group (RE.seq RE.digit RE.eps)) RE.eps)) ∧
    (∃ t, "-5".toList = '-' :: t) := by
  refine ⟨by rfl, ?_, ?_⟩
  · exact c10_negative_prefix_and_group.1 ("0;(0)".toList) ['0'] ['(', '0', ')']
      ⟨RE.seq RE.digit RE.eps,
        RE.seq (RE.lit '-') (RE.seq (RE.group (RE.seq RE.digit RE.eps)) RE.eps)⟩
      (by rfl) (by rfl)
  · exact c10_negative_prefix_and_group.2.2.2.2.1 ['(', '0', ')']
      (RE.seq (RE.lit '-') (RE.seq (RE.group (RE.seq RE.digit RE.eps)) RE.eps))
      ("-5".toList) (by decide) (by rfl) (by decide)

/-- C4 counterexample: in the pattern `"'.'0"` the quoted `.` is NOT matched
    literally during validation — the input `"x7"`, which contains no `.` at
    all, is accepted (the quoted `.` reaches the regex as the any-character
    metacharacter). -/
theorem c4_counterexample_quoted_dot :
    checkPat "'.'0" "x7" = true ∧ '.' ∉ "x7".toList := by
  refine ⟨by decide, by decide⟩

/-- C8 counterexample: the pattern `"("` consists only of recognized special
    characters and splits into a single sub-pattern, yet `DecimalFormat::new`
    returns a compilation error (the emitted regex `^($` does not compile). -/
theorem c8_counterexample_paren :
    DecimalFormat.new ("(".toList) = Except.error "Invalid regex pattern" ∧
    splitPatterns ("(".toList) false [] [] = Except.ok [['(']] ∧
    "(".toList.all (fun c => specialChars.contains c) = true := by
  refine ⟨by rfl, by rfl, by decide⟩

/-- C5 counterexample: for input `"A\r\n"` (which ends with the separator)
    the reader emits the records `["A", ""]` — the residual buffer is
    emitted at EOF even though it is empty, producing an extra empty
    record. -/
theorem c5_counterexample_trailing_separator :
    records [13, 10] [65, 13, 10] = [[65], []] ∧
    (records [13, 10] [65, 13, 10]).getLast? = some [] := by
  refine ⟨by decide, by decide⟩

/-- C5 (amended): once `finished` is set and the buffer is empty every pull
    returns `none` and leaves the state unchanged (sticky exhaustion); a
    pull on an unfinished reader whose input is exhausted always emits the
    residual buffer — even when it is empty — and sets `finished`; no
    trailing delimiter is required (input `"A\r\nB"` yields `["A", "B"]`). -/
theorem c5_amended_eof_emission :
    (∀ sep : List Nat, nextRecord sep ⟨[], [], true⟩ = (none, ⟨[], [], true⟩)) ∧
    (∀ (sep : List Nat) (buf : List Nat),
      nextRecord sep ⟨[], buf, false⟩ = (some buf, ⟨[], [], true⟩)) ∧
    records [13, 10] [65, 13, 10, 66] = [[65], [66]] := by
  refine ⟨fun sep => ?_, fun sep buf => ?_, by decide⟩
  · simp [nextRecord]
  · simp [nextRecord, readLoop]

/-- C6 counterexample: with the separator `"\r\n"` (expanded to `[13, 10]`),
    the input `"a\r\r\nb"` contains one `\r\n` occurrence, but the reader's
    naive reset misses it and emits the whole input as a single record
    instead of the two split parts. -/
theorem c6_counterexample_missed_crlf :
    expandSeparator ("\\r\\n".toList) = [13, 10] ∧
    records [13, 10] [97, 13, 13, 10, 98] = [[97, 13, 13, 10, 98]] ∧
    splitSpec [13, 10] [97, 13, 13, 10, 98] = [[97, 13], [98]] ∧
    records [13, 10] [97, 13, 13, 10, 98] ≠ splitSpec [13, 10] [97, 13, 13, 10, 98] := by
  refine ⟨by decide, by decide, by decide, by decide⟩

/-- C9: `Parser::new` does not surface a file-open failure as an error
    value — it runs `todo!`, i.e. panics (aborts), for every open error,
    contradicting the crate root `parser()` wrapper and the tests, which
    expect a `Result`. -/
theorem c9_parser_new_abort_on_open_error (e : String) (sr : Except String Schema) :
    parserNew (Except.error e) sr = Res.abort := rfl


/-! ## Reader lemmas for C6 -/

theorem findSep_some {sep : List Nat} :
    ∀ {l p q : List Nat}, findSep sep l = some (p, q) → l = p ++ sep ++ q := by
  intro l
  induction l with
  | nil => intro p q h; simp [findSep] at h
  | cons b rest ih =>
    intro p q h
    by_cases hp : sep.isPrefixOf (b :: rest)
    · simp only [findSep, if_pos hp] at h
      obtain ⟨t, ht⟩ := List.isPrefixOf_iff_prefix.mp hp
      have hdrop : (b :: rest).drop sep.length = t := by
        rw [← ht, List.drop_left]
      rw [hdrop] at h
      cases h
      simp [← ht]
    · simp only [findSep, if_neg hp] at h
      cases hf : findSep sep rest with
      | none => rw [hf] at h; cases h
      | some pq =>
        obtain ⟨p1, q1⟩ := pq
        rw [hf] at h
        cases h
        have := ih hf
        simp [this]

theorem noCRCR_tail {a : Nat} {l : List Nat} (h : noCRCR (a :: l) = true) :
    noCRCR l = true := by
  cases l with
  | nil => rfl
  | cons b rest =>
    rw [noCRCR] at h
    exact (Bool.and_eq_true_iff.mp h).2

theorem noCRCR_append_right {a b : List Nat} (h : noCRCR (a ++ b) = true) :
    noCRCR b = true := by
  induction a with
  | nil => exact h
  | cons x xs ih => exact ih (noCRCR_tail h)

theorem noCRCR_cr_head {c : Nat} {l : List Nat} (h : noCRCR (13 :: c :: l) = true) :
    c ≠ 13 := by
  rw [noCRCR] at h
  have h1 := (Bool.and_eq_true_iff.mp h).1
  intro hc
  subst hc
  simp at h1

/-- On inputs without consecutive CR bytes, the byte loop of
    `LinesWithSeparator::next` with separator CRLF finds exactly the
    leftmost CRLF occurrence (or reaches EOF). -/
theorem readLoop_crlf :
    ∀ (input B : List Nat), noCRCR input = true →
      readLoop [13, 10] input B 0 =
        (match findSep [13, 10] input with
         | some (p, q) => (B ++ p, q, false)
         | none => (B ++ input, [], true)) := by
  have main : ∀ (n : Nat) (input B : List Nat), input.length ≤ n →
      noCRCR input = true →
      readLoop [13, 10] input B 0 =
        (match findSep [13, 10] input with
         | some (p, q) => (B ++ p, q, false)
         | none => (B ++ input, [], true)) := by
    intro n
    induction n with
    | zero =>
      intro input B hlen _
      have : input = [] := List.length_eq_zero.mp (Nat.le_zero.mp hlen)
      subst this
      simp [readLoop, findSep]
    | succ n ih =>
      intro input B hlen hcr
      cases input with
      | nil => simp [readLoop, findSep]
      | cons b rest =>
        by_cases hb : b = 13
        · subst hb
          cases rest with
          | nil =>
            simp [readLoop, findSep, List.isPrefixOf]
          | cons c rest2 =>
            by_cases hc : c = 10
            · subst hc
              have hpre : ([13, 10] : List Nat).isPrefixOf (13 :: 10 :: rest2) = true := by
                simp [List.isPrefixOf]
              simp only [findSep, if_pos hpre]
              simp only [readLoop, List.getD, List.get?, Option.getD, List.length_cons,
                List.length_nil]
              norm_num
              have h2 : B.length + 1 + 1 - 2 = B.length := by omega
              rw [h2, List.take_left]
            · have hc13 : c ≠ 13 := noCRCR_cr_head hcr
              have hnp1 : ([13, 10] : List Nat).isPrefixOf (13 :: c :: rest2) = false := by
                simp [List.isPrefixOf]
                omega
              have hnp2 : ([13, 10] : List Nat).isPrefixOf (c :: rest2) = false := by
                simp [List.isPrefixOf]
                omega
              have hrest2 : rest2.length ≤ n := by
                simp only [List.length_cons] at hlen; omega
              have hcr2 : noCRCR rest2 = true := noCRCR_tail (noCRCR_tail hcr)
              simp only [readLoop, List.getD, List.get?, Option.getD, List.length_cons,
                List.length_nil]
              norm_num
              rw [if_neg hc]
              rw [ih rest2 (B ++ [13, c]) hrest2 hcr2]
              simp only [findSep, if_neg (by simp [hnp1] : ¬ ([13, 10] : List Nat).isPrefixOf (13 :: c :: rest2) = true),
                if_neg (by simp [hnp2] : ¬ ([13, 10] : List Nat).isPrefixOf (c :: rest2) = true)]
              cases hf : findSep [13, 10] rest2 with
              | none => simp
              | some pq =>
                obtain ⟨p1, q1⟩ := pq
                simp
        · have hnp : ([13, 10] : List Nat).isPrefixOf (b :: rest) = false := by
            simp [List.isPrefixOf]
            omega
          have hrest : rest.length ≤ n := by
            simp only [List.length_cons] at hlen; omega
          simp only [readLoop, List.getD, List.get?, Option.getD]
          rw [if_neg hb]
          rw [ih rest (B ++ [b]) hrest (noCRCR_tail hcr)]
          simp only [findSep,
            if_neg (by simp [hnp] : ¬ ([13, 10] : List Nat).isPrefixOf (b :: rest) = true)]
          cases hf : findSep [13, 10] rest with
          | none => simp
          | some pq =>
            obtain ⟨p1, q1⟩ := pq
            simp
  exact fun input B => main input.length input B (Nat.le_refl _)


/-- C6 (amended): the byte-at-a-time matching resets the match index to 0 on
    mismatch without re-examining the mismatching byte, so even the
    separator CRLF can miss occurrences (a CR directly followed by another
    CR defeats it, see the counterexample).  For every input byte stream
    that contains no two consecutive CR bytes, the emitted records are
    exactly the input split at every occurrence of CRLF. -/
theorem c6_amended_records_eq_split (input : List Nat)
    (h : noCRCR input = true) :
    records [13, 10] input = splitSpec [13, 10] input := by
  have main : ∀ (n : Nat) (input : List Nat) (f1 f2 : Nat), input.length ≤ n →
      noCRCR input = true → input.length + 2 ≤ f1 → input.length + 1 ≤ f2 →
      recordsFuel [13, 10] f1 ⟨input, [], false⟩ = splitSpecFuel [13, 10] f2 input := by
    intro n
    induction n with
    | zero =>
      intro input f1 f2 hlen hcr hf1 hf2
      have hinp : input = [] := List.length_eq_zero.mp (Nat.le_zero.mp hlen)
      subst hinp
      obtain ⟨k1, rfl⟩ : ∃ k, f1 = k + 2 := ⟨f1 - 2, by omega⟩
      obtain ⟨k2, rfl⟩ : ∃ k, f2 = k + 1 := ⟨f2 - 1, by omega⟩
      simp [recordsFuel, nextRecord, readLoop, splitSpecFuel, findSep]
    | succ n ih =>
      intro input f1 f2 hlen hcr hf1 hf2
      obtain ⟨k1, rfl⟩ : ∃ k, f1 = k + 1 := ⟨f1 - 1, by omega⟩
      obtain ⟨k2, rfl⟩ : ∃ k, f2 = k + 1 := ⟨f2 - 1, by omega⟩
      rw [recordsFuel, splitSpecFuel]
      have hnext : nextRecord [13, 10] ⟨input, [], false⟩ =
          match readLoop [13, 10] input [] 0 with
          | (buf1, rest, fin) => (some buf1, ⟨rest, [], fin⟩) := by
        simp [nextRecord]
      rw [hnext, readLoop_crlf input [] hcr]
      cases hf : findSep [13, 10] input with
      | none =>
        obtain ⟨k1b, rfl⟩ : ∃ k, k1 = k + 1 := ⟨k1 - 1, by omega⟩
        simp [recordsFuel, nextRecord]
      | some pq =>
        obtain ⟨p, q⟩ := pq
        have hsplit := findSep_some hf
        have hqlen : q.length + 2 ≤ input.length := by
          rw [hsplit]
          simp only [List.length_append, List.length_cons, List.length_nil]
          omega
        have hcrq : noCRCR q = true := by
          rw [hsplit] at hcr
          exact @noCRCR_append_right (p ++ [13, 10]) q (by simpa using hcr)
        simp only []
        have hrec := ih q k1 k2 (by omega) hcrq (by omega) (by omega)
        simp [hrec]
  exact main input.length input (input.length + 2) (input.length + 1)
    (Nat.le_refl _) h (Nat.le_refl _) (Nat.le_refl _)

/-- Witness for `c6_amended_records_eq_split` at the input `"A\r\nB"`. -/
theorem c6_amended_records_eq_split_witness :
    noCRCR [65, 13, 10, 66] = true ∧
    records [13, 10] [65, 13, 10, 66] = splitSpec [13, 10] [65, 13, 10, 66] :=
  ⟨by decide, c6_amended_records_eq_split [65, 13, 10, 66] (by decide)⟩


/-! ## Validator lemmas for C1 -/

theorem sliceGet_some {text : String} {s e : Nat} {v : String}
    (h : sliceGet text s e = some v) : v = sliceIdx text s e := by
  unfold sliceGet at h
  split at h
  · cases h; rfl
  · cases h

theorem trimByAlignment_eq_specTrim {c : Cell} {f : Format} (hfmt : c.format = some f)
    (halign : c.alignment = "" ∨ c.alignment = "left" ∨ c.alignment = "right" ∨
      c.alignment = "center") (v : String) :
    trimByAlignment (effectiveAlignment c f) c.padcharacter v = specTrim c v := by
  unfold trimByAlignment effectiveAlignment specTrim specAlignment
  rcases halign with h | h | h | h <;>
    rw [h] <;> by_cases hn : f.ctype = "number" <;> simp [hn, hfmt]

theorem validateCell_ok_value {dateOk : String → String → Bool} {c : Cell}
    {text v : String}
    (halign : c.alignment = "" ∨ c.alignment = "left" ∨ c.alignment = "right" ∨
      c.alignment = "center")
    (hctype : ∀ f, c.format = some f →
      f.ctype = "date" ∨ f.ctype = "string" ∨ f.ctype = "number")
    (h : validateCell dateOk c text = Res.val (Except.ok v)) :
    v = specCellValue c text := by
  unfold validateCell at h
  cases hs : sliceGet text c.start c.endIdx with
  | none => rw [hs] at h; simp at h
  | some cv =>
    have hcv : cv = sliceIdx text c.start c.endIdx := sliceGet_some hs
    rw [hs] at h
    cases hfmt : c.format with
    | none =>
      rw [hfmt] at h
      simp only [Res.val.injEq, Except.ok.injEq] at h
      simp [specCellValue, hfmt, ← h, hcv]
    | some f =>
      rw [hfmt] at h
      dsimp only [] at h
      rcases hctype f hfmt with hct | hct | hct
      · rw [hct, if_pos rfl] at h
        simp only [specCellValue, hfmt, hct]
        simp only [true_or, or_true, if_true]
        simp only [specTrimmedValue]
        split at h
        · simp only [Res.val.injEq, Except.ok.injEq] at h
          rw [← h, hcv]
          exact trimByAlignment_eq_specTrim hfmt halign _
        · simp at h
      · rw [hct, if_neg (by decide), if_pos rfl] at h
        simp only [specCellValue, hfmt, hct]
        simp only [true_or, or_true, if_true]
        simp only [specTrimmedValue]
        split at h
        · split at h
          · simp only [Res.val.injEq, Except.ok.injEq] at h
            rw [← h, hcv]
            exact trimByAlignment_eq_specTrim hfmt halign _
          · simp at h
        · simp at h
      · rw [hct, if_neg (by decide), if_neg (by decide), if_pos rfl] at h
        simp only [specCellValue, hfmt, hct]
        simp only [true_or, or_true, if_true]
        simp only [specTrimmedValue]
        split at h
        · simp at h
        · split at h
          · simp only [Res.val.injEq, Except.ok.injEq] at h
            rw [← h, hcv]
            exact trimByAlignment_eq_specTrim hfmt halign _
          · simp at h

theorem processCells_ok {dateOk : String → String → Bool} {text : String} :
    ∀ (cells : List Cell) (acc out : List (String × String)),
      (∀ c ∈ cells,
        (c.alignment = "" ∨ c.alignment = "left" ∨ c.alignment = "right" ∨
          c.alignment = "center") ∧
        (∀ f, c.format = some f →
          f.ctype = "date" ∨ f.ctype = "string" ∨ f.ctype = "number")) →
      (∀ c ∈ cells, ∀ kv ∈ acc, kv.1 ≠ c.name) →
      (cells.map Cell.name).Nodup →
      processCells dateOk text cells acc = Res.val (Except.ok out) →
      out = acc ++ cells.map (fun c => (c.name, specCellValue c text)) := by
  intro cells
  induction cells with
  | nil =>
    intro acc out _ _ _ h
    simp only [processCells, Res.val.injEq, Except.ok.injEq] at h
    simp [← h]
  | cons c cs ih =>
    intro acc out hwf hdisj hnodup h
    rw [processCells] at h
    cases hvc : validateCell dateOk c text with
    | abort => rw [hvc] at h; cases h
    | val r =>
      rw [hvc] at h
      cases r with
      | error e => dsimp only [] at h; simp at h
      | ok v =>
        dsimp only [] at h
        have hv : v = specCellValue c text :=
          validateCell_ok_value (hwf c (by simp)).1 (hwf c (by simp)).2 hvc
        have hnotin : ¬ (acc.any (fun kv => kv.1 == c.name) = true) := by
          simp only [List.any_eq_true, beq_iff_eq, not_exists]
          intro kv
          intro hkv
          rcases hkv with ⟨hmem, heq⟩
          exact absurd heq (hdisj c (by simp) kv hmem)
        have hins : indexInsert acc c.name v = acc ++ [(c.name, v)] := by
          unfold indexInsert
          rw [if_neg hnotin]
        rw [hins] at h
        have hdisj2 : ∀ c' ∈ cs, ∀ kv ∈ acc ++ [(c.name, v)], kv.1 ≠ c'.name := by
          intro c' hc' kv hkv
          rcases List.mem_append.mp hkv with hkv1 | hkv1
          · exact hdisj c' (by simp [hc']) kv hkv1
          · have : kv = (c.name, v) := by simpa using hkv1
            rw [this]
            intro hcon
            have hne : c.name ∉ cs.map Cell.name := by
              have := hnodup
              simp only [List.map_cons, List.nodup_cons] at this
              exact this.1
            exact hne (by
              simp only [List.mem_map]
              exact ⟨c', hc', hcon.symm⟩)
        have hnodup2 : (cs.map Cell.name).Nodup := by
          simp only [List.map_cons, List.nodup_cons] at hnodup
          exact hnodup.2
        have := ih (acc ++ [(c.name, v)]) out
          (fun c' hc' => hwf c' (by simp [hc'])) hdisj2 hnodup2 h
        simp [this, hv]

/-- C1 counterexample: a cell that carries no format is stored untrimmed.
    For the record `"AB   "` the formatless cell of `schemaNoFormat`
    (padcharacter `" "`, empty alignment — effective alignment `left` per
    the claim) stores the raw substring `"AB   "`, while the claim requires
    the right-trimmed `"AB"`. -/
theorem c1_counterexample_no_format_untrimmed :
    validateLine (fun _ _ => false) schemaNoFormat 1 "AB   " =
      Res.val (Except.ok ⟨1, [("X", "AB   ")], "t"⟩) ∧
    specTrimmedValue cellNoFormat "AB   " = "AB" ∧
    ("AB   " : String) ≠ "AB" := by
  refine ⟨rfl, by decide, by decide⟩

/-- C1 (amended): for every record that validates successfully against a
    line whose cell names are distinct, whose explicit alignments are among
    `left`/`right`/`center`/empty and whose formats are of type
    `date`/`string`/`number`, the `cell_values` map lists its keys in the
    declaration order of the selected line's cells; the value under each key
    is the substring `text[start..end]` trimmed per the effective alignment
    for cells carrying a format, and the raw untrimmed substring for cells
    that carry no format. -/
theorem c1_amended_cell_values (dateOk : String → String → Bool) (s : Schema)
    (fws : FixedWidthSchema) (hfws : s.fixedwidthschema = some fws)
    (n : Nat) (text : String) (lt : String) (ml : Line)
    (hmatch : findMatchingSchemaLinetype dateOk s text fws.getLineConditionsF =
      Res.val (some (lt, ml)))
    (halign : ∀ c ∈ ml.cell, c.alignment = "" ∨ c.alignment = "left" ∨
      c.alignment = "right" ∨ c.alignment = "center")
    (hctype : ∀ c ∈ ml.cell, ∀ f, c.format = some f →
      f.ctype = "date" ∨ f.ctype = "string" ∨ f.ctype = "number")
    (hnodup : (ml.cell.map Cell.name).Nodup)
    (out : ProcessedLineOk)
    (hok : validateLine dateOk s n text = Res.val (Except.ok out)) :
    out.cell_values = ml.cell.map (fun c => (c.name, specCellValue c text)) ∧
    out.cell_values.map Prod.fst = ml.cell.map Cell.name ∧
    out.linetype = lt ∧ out.line_number = n := by
  unfold validateLine at hok
  rw [show s.getLineConditionsR = Res.val fws.getLineConditionsF by
        simp [Schema.getLineConditionsR, Schema.getBinding, hfws]] at hok
  rw [show s.getSchemaTypeR = Res.val "fixedwidthschema" by
        simp [Schema.getSchemaTypeR, hfws]] at hok
  dsimp only [] at hok
  rw [if_pos rfl] at hok
  rw [hmatch] at hok
  dsimp only [] at hok
  split at hok
  · simp at hok
  · cases hpc : processCells dateOk text ml.cell [] with
    | abort => rw [hpc] at hok; simp at hok
    | val r =>
      rw [hpc] at hok
      cases r with
      | error e => dsimp only [] at hok; simp at hok
      | ok cvs =>
        dsimp only [] at hok
        simp only [Res.val.injEq, Except.ok.injEq] at hok
        have hcv : cvs = [] ++ ml.cell.map (fun c => (c.name, specCellValue c text)) :=
          processCells_ok ml.cell [] cvs
            (fun c hc => ⟨halign c hc, hctype c hc⟩)
            (by intro c _ kv hkv; simp at hkv) hnodup hpc
        rw [← hok]
        simp only [List.nil_append] at hcv
        refine ⟨hcv, ?_, rfl, rfl⟩
        rw [hcv, List.map_map]
        rfl

/-- Witness for `c1_amended_cell_values` on `schemaXY` and record
    `"AB C "`: `X` keeps the raw `"AB"`, the string-format `Y` stores the
    right-trimmed `" C"`, in declaration order. -/
theorem c1_amended_cell_values_witness :
    validateLine (fun _ _ => false) schemaXY 1 "AB C " =
      Res.val (Except.ok ⟨1, [("X", "AB"), ("Y", " C")], "t"⟩) ∧
    ([("X", "AB"), ("Y", " C")] : List (String × String)) =
      lineXY.cell.map (fun c => (c.name, specCellValue c "AB C ")) :=
  ⟨rfl,
    ((c1_amended_cell_values (fun _ _ => false) schemaXY ⟨"\n", [lineXY]⟩ rfl
      1 "AB C " "t" lineXY rfl (by decide)
      (by
        intro c hc f hf
        simp only [lineXY, List.mem_cons, List.not_mem_nil, or_false] at hc
        rcases hc with rfl | rfl
        · cases hf
        · cases hf; simp)
      (by decide) ⟨1, [("X", "AB"), ("Y", " C")], "t"⟩ rfl).1).symm⟩


/-! ## Selection lemmas for C2 and C7 -/

theorem condMetCell_val {dateOk : String → String → Bool} {text : String}
    {met b : Bool} {c : Cell}
    (h : condMetCell dateOk text met c = Res.val b) :
    (specFormatPasses dateOk text c = false ∧ b = met) ∨
    (specFormatPasses dateOk text c = true ∧
      b = (sliceIdx text c.start c.endIdx == c.linecondition_pattern.getD "")) := by
  unfold condMetCell at h
  split at h
  · cases hvc : validateCell dateOk c text with
    | abort => rw [hvc] at h; cases h
    | val r =>
      rw [hvc] at h
      cases r with
      | error e =>
        dsimp only [] at h
        left
        refine ⟨by simp [specFormatPasses, hvc], ?_⟩
        simp only [Res.val.injEq] at h
        exact h.symm
      | ok v =>
        dsimp only [] at h
        right
        refine ⟨by simp [specFormatPasses, hvc], ?_⟩
        split at h
        · cases hp : c.linecondition_pattern with
          | none => rw [hp] at h; cases h
          | some p =>
            rw [hp] at h
            dsimp only [] at h
            simp only [Res.val.injEq] at h
            simp only [hp, Option.getD_some]
            exact h.symm
        · cases h
  · cases h

theorem condMetCells_val {dateOk : String → String → Bool} {text : String} :
    ∀ (cells : List Cell) (met b : Bool),
      condMetCells dateOk text cells met = Res.val b →
      b = (match (cells.filter (specFormatPasses dateOk text)).getLast? with
           | some c => sliceIdx text c.start c.endIdx == c.linecondition_pattern.getD ""
           | none => met) := by
  intro cells
  induction cells with
  | nil =>
    intro met b h
    simp only [condMetCells, Res.val.injEq] at h
    simp [← h]
  | cons c cs ih =>
    intro met b h
    rw [condMetCells] at h
    cases hcm : condMetCell dateOk text met c with
    | abort => rw [hcm] at h; cases h
    | val met1 =>
      rw [hcm] at h
      have ihb := ih met1 b h
      rcases condMetCell_val hcm with ⟨hpass, hmet⟩ | ⟨hpass, hmet⟩
      · rw [List.filter_cons, if_neg (by simp [hpass])]
        rw [ihb, hmet]
      · rw [List.filter_cons, if_pos (by simp [hpass])]
        cases hl : cs.filter (specFormatPasses dateOk text) with
        | nil =>
          rw [hl] at ihb
          simp only [List.getLast?_singleton]
          simp only [List.getLast?_nil] at ihb
          rw [ihb, hmet]
        | cons c1 l1 =>
          rw [hl] at ihb
          rw [List.getLast?_cons_cons]
          exact ihb

theorem findMatchLoop_val {dateOk : String → String → Bool} {text : String} :
    ∀ (conds : List (String × List Cell)) (m : String),
      findMatchLoop dateOk text conds = Res.val m →
      specFirstMet dateOk text conds = some m ∨
        (specFirstMet dateOk text conds = none ∧ m = "") := by
  intro conds
  induction conds with
  | nil =>
    intro m h
    simp only [findMatchLoop, Res.val.injEq] at h
    right
    exact ⟨by simp [specFirstMet], h.symm⟩
  | cons nc rest ih =>
    intro m h
    obtain ⟨nm, cells⟩ := nc
    rw [findMatchLoop] at h
    cases hcm : condMetCells dateOk text cells false with
    | abort => rw [hcm] at h; cases h
    | val bb =>
      rw [hcm] at h
      have hb : bb = specCondMet dateOk text cells := condMetCells_val cells false bb hcm
      cases bb with
      | true =>
        dsimp only [] at h
        simp only [Res.val.injEq] at h
        left
        unfold specFirstMet
        rw [List.find?_cons_of_pos _ (by simpa using hb.symm)]
        simp [← h]
      | false =>
        dsimp only [] at h
        have := ih m h
        unfold specFirstMet at this ⊢
        rw [List.find?_cons_of_neg _ (by simpa using hb.symm)]
        exact this

theorem getLineConditionsF_mem_lookup {fws : FixedWidthSchema} {n : String}
    {cells : List Cell} (h : (n, cells) ∈ fws.getLineConditionsF) :
    ∃ l, fws.getLineByLinetypeF n = some l := by
  unfold FixedWidthSchema.getLineConditionsF at h
  rw [List.mem_filterMap] at h
  obtain ⟨line, hline, heq⟩ := h
  dsimp only [] at heq
  have hn : line.linetype = n := by
    split at heq
    · cases heq
    · cases heq; rfl
  have hsome : (fws.lines.find? (fun l => l.linetype == n)).isSome := by
    rw [List.find?_isSome]
    exact ⟨line, hline, by simp [hn]⟩
  obtain ⟨l, hl⟩ := Option.isSome_iff_exists.mp hsome
  exact ⟨l, hl⟩

/-- C2 counterexample: a schema whose only line has `linetype = ""` and a
    condition matching the record `"H"`.  The candidate's final
    `line_condition_met` is true (it is the first met candidate), yet
    `find_matching_schema_linetype` selects nothing: the empty name is
    treated as "no match" and the default-line fallback yields `none`. -/
theorem c2_counterexample_empty_linetype :
    specFirstMet (fun _ _ => false) "H"
      (FixedWidthSchema.getLineConditionsF ⟨"\n", [lineEmptyName]⟩) = some "" ∧
    findMatchingSchemaLinetype (fun _ _ => false) schemaEmptyName "H"
      (FixedWidthSchema.getLineConditionsF ⟨"\n", [lineEmptyName]⟩) =
      Res.val none := by
  refine ⟨rfl, rfl⟩

/-- C2 (amended): whenever line-type selection finishes without a panic, a
    conditioned candidate's fate is decided by the last conditioned cell
    whose format validation passes (format failures are skipped without
    disqualifying the line), and the first candidate in schema order whose
    final `line_condition_met` is true is selected — provided its linetype
    is non-empty (an empty linetype falls through to the default line). -/
theorem c2_amended_last_condition_selects (dateOk : String → String → Bool)
    (s : Schema) (fws : FixedWidthSchema) (hfws : s.fixedwidthschema = some fws)
    (text : String) (r : Option (String × Line)) (n : String)
    (hval : findMatchingSchemaLinetype dateOk s text fws.getLineConditionsF = Res.val r)
    (hfirst : specFirstMet dateOk text fws.getLineConditionsF = some n)
    (hne : n ≠ "") :
    ∃ ml, fws.getLineByLinetypeF n = some ml ∧ r = some (n, ml) := by
  unfold findMatchingSchemaLinetype at hval
  cases hloop : findMatchLoop dateOk text fws.getLineConditionsF with
  | abort => rw [hloop] at hval; cases hval
  | val m =>
    rw [hloop] at hval
    rcases findMatchLoop_val _ m hloop with hsp | ⟨hsp, hm⟩
    · have hmn : m = n := by
        rw [hfirst] at hsp
        exact Option.some_inj.mp hsp.symm
      subst hmn
      dsimp only [] at hval
      rw [if_neg hne] at hval
      rw [show s.getBinding = Res.val fws from by simp [Schema.getBinding, hfws]] at hval
      dsimp only [] at hval
      simp only [Res.val.injEq] at hval
      have hmem : ∃ cells, (m, cells) ∈ fws.getLineConditionsF := by
        unfold specFirstMet at hfirst
        cases hf : List.find? (fun nc => specCondMet dateOk text nc.2)
            fws.getLineConditionsF with
        | none => rw [hf] at hfirst; cases hfirst
        | some nc =>
          rw [hf] at hfirst
          have hmem2 := List.mem_of_find?_eq_some hf
          obtain ⟨n1, cells1⟩ := nc
          simp at hfirst
          subst hfirst
          exact ⟨cells1, hmem2⟩
      obtain ⟨cells, hmem⟩ := hmem
      obtain ⟨l, hl⟩ := getLineConditionsF_mem_lookup hmem
      refine ⟨l, hl, ?_⟩
      rw [← hval, hl]
      rfl
    · rw [hfirst] at hsp; cases hsp

/-- Witness for `c2_amended_last_condition_selects` on `schemaHD` and the
    record `"H"`: the conditioned header `"h"` is selected. -/
theorem c2_amended_last_condition_selects_witness :
    ∃ ml, FixedWidthSchema.getLineByLinetypeF ⟨"\n", [lineH, lineD]⟩ "h" = some ml ∧
      (some ("h", lineH) : Option (String × Line)) = some ("h", ml) :=
  c2_amended_last_condition_selects (fun _ _ => false) schemaHD
    ⟨"\n", [lineH, lineD]⟩ rfl "H" (some ("h", lineH)) "h" rfl rfl (by decide)

/-- C7: for every schema with more than one line lacking any
    line-condition, `get_first_line_without_condition` returns `none`;
    consequently, whenever the candidate scan finishes without a panic and
    the record meets no conditioned line, `validate_line` returns the error
    `[err:001]|line|no match found for schema line type` with the record's
    line number. -/
theorem c7_no_default_err001 (dateOk : String → String → Bool)
    (s : Schema) (fws : FixedWidthSchema) (hfws : s.fixedwidthschema = some fws)
    (hcount : 1 < (fws.lines.filter (fun l =>
      l.cell.all (fun c => c.linecondition_pattern.isNone))).length)
    (text : String) (m : String)
    (hloop : findMatchLoop dateOk text fws.getLineConditionsF = Res.val m)
    (hnomatch : ∀ nc ∈ fws.getLineConditionsF, specCondMet dateOk text nc.2 = false)
    (n : Nat) :
    fws.getFirstLineWithoutConditionF = none ∧
    validateLine dateOk s n text =
      Res.val (Except.error ⟨n, "[err:001]|line|no match found for schema line type"⟩) := by
  have hdef : fws.getFirstLineWithoutConditionF = none := by
    unfold FixedWidthSchema.getFirstLineWithoutConditionF
    dsimp only []
    rw [if_pos hcount]
  refine ⟨hdef, ?_⟩
  have hm : m = "" := by
    rcases findMatchLoop_val _ m hloop with hsp | ⟨_, hm⟩
    · unfold specFirstMet at hsp
      cases hf : List.find? (fun nc => specCondMet dateOk text nc.2)
          fws.getLineConditionsF with
      | none => rw [hf] at hsp; cases hsp
      | some nc =>
        have hmem := List.mem_of_find?_eq_some hf
        have htrue := List.find?_some hf
        rw [hnomatch nc hmem] at htrue
        cases htrue
    · exact hm
  subst hm
  have hfm : findMatchingSchemaLinetype dateOk s text fws.getLineConditionsF =
      Res.val none := by
    unfold findMatchingSchemaLinetype
    rw [hloop]
    dsimp only []
    rw [if_pos rfl]
    rw [show s.getBinding = Res.val fws from by simp [Schema.getBinding, hfws]]
    dsimp only []
    rw [hdef]
  unfold validateLine
  rw [show s.getLineConditionsR = Res.val fws.getLineConditionsF from by
    simp [Schema.getLineConditionsR, Schema.getBinding, hfws]]
  rw [show s.getSchemaTypeR = Res.val "fixedwidthschema" from by
    simp [Schema.getSchemaTypeR, hfws]]
  dsimp only []
  rw [if_pos rfl, hfm]

/-- Witness for `c7_no_default_err001` on `schemaHDE` (two unconditioned
    lines) and the record `"X"`, which meets no line condition. -/
theorem c7_no_default_err001_witness :
    FixedWidthSchema.getFirstLineWithoutConditionF ⟨"\n", [lineH, lineD, lineE]⟩ = none ∧
    validateLine (fun _ _ => false) schemaHDE 1 "X" =
      Res.val (Except.error ⟨1, "[err:001]|line|no match found for schema line type"⟩) :=
  c7_no_default_err001 (fun _ _ => false) schemaHDE ⟨"\n", [lineH, lineD, lineE]⟩
    rfl (by decide) "X" "" rfl (by decide) 1


set_option maxHeartbeats 2000000 in
theorem parseRE_esc_step {c : Char} {a : RE} (ha : escAtom c = some a)
    {h1 : Char} (hq : h1 ≠ '?') (t1 : List Char) (f : Nat) :
    parseRE (f + 1) ('\\' :: c :: h1 :: t1) =
      (parseRE f (h1 :: t1)).map (fun p => (RE.seq a p.1, p.2)) := by
  rw [parseRE.eq_def]
  split
  · omega
  · simp_all
  · simp_all
  · simp_all
  · simp_all
  · next g1 g2 fl ch tl hfe hle =>
    injection hle with h5 h6
    injection h6 with h6a h6b
    subst h6a
    subst h6b
    obtain rfl : fl = f := by omega
    rw [ha]
    dsimp only []
    split
    · next rest2 hq2 =>
      exfalso
      apply hq
      injection hq2
    · rfl
  · simp_all
  · next g1 g2 fl ch tl i1 i2 i3 i4 i5 hfe hle =>
    injection hle with hA hB
    exact absurd hB.symm (i4 c (h1 :: t1) hA.symm)

set_option maxHeartbeats 2000000 in
theorem parseRE_esc_opt_step {c : Char} {a : RE} (ha : escAtom c = some a)
    (t1 : List Char) (f : Nat) :
    parseRE (f + 1) ('\\' :: c :: '?' :: t1) =
      (parseRE f t1).map (fun p => (RE.seq (RE.opt a) p.1, p.2)) := by
  rw [parseRE.eq_def]
  split
  · omega
  · simp_all
  · simp_all
  · simp_all
  · simp_all
  · next g1 g2 fl ch tl hfe hle =>
    injection hle with h5 h6
    injection h6 with h6a h6b
    subst h6a
    subst h6b
    obtain rfl : fl = f := by omega
    rw [ha]
    rfl
  · simp_all
  · next g1 g2 fl ch tl i1 i2 i3 i4 i5 hfe hle =>
    injection hle with hA hB
    exact absurd hB.symm (i4 c ('?' :: t1) hA.symm)


/-- The emitted body of an `allowedEmit` pattern (followed by `$`) never
    starts with `?`. -/
theorem emitted_head (sub : List Char) (hmem : ∀ c ∈ sub, c ∈ allowedEmit) :
    ∃ h1 t1, patternToRegexLoop sub false ++ ['$'] = h1 :: t1 ∧ h1 ≠ '?' := by
  cases sub with
  | nil => exact ⟨'$', [], rfl, by decide⟩
  | cons c rest =>
    have hc := hmem c (by simp)
    simp only [allowedEmit, List.mem_cons, List.not_mem_nil, or_false] at hc
    rcases hc with rfl | rfl | rfl | rfl | rfl | rfl | rfl
    · exact ⟨'-', _, rfl, by decide⟩
    · exact ⟨'\\', _, rfl, by decide⟩
    · exact ⟨'\\', _, rfl, by decide⟩
    · exact ⟨'\\', _, rfl, by decide⟩
    · exact ⟨'\\', _, rfl, by decide⟩
    · exact ⟨'\\', _, rfl, by decide⟩
    · exact ⟨'%', _, rfl, by decide⟩

/-- The emitted regex body of an `allowedEmit` pattern always parses,
    consuming everything up to the final `$`. -/
theorem parse_emitted : ∀ (sub : List Char) (fuel : Nat),
    (∀ c ∈ sub, c ∈ allowedEmit) →
    (patternToRegexLoop sub false).length + 1 ≤ fuel →
    ∃ r, parseRE fuel (patternToRegexLoop sub false ++ ['$']) = some (r, ['$']) := by
  intro sub
  induction sub with
  | nil =>
    intro fuel _ hf
    obtain ⟨f, rfl⟩ : ∃ k, fuel = k + 1 := ⟨fuel - 1, by omega⟩
    exact ⟨RE.eps, rfl⟩
  | cons c sub1 ih =>
    intro fuel hmem hf
    have hmem1 : ∀ x ∈ sub1, x ∈ allowedEmit := fun x hx => hmem x (by simp [hx])
    obtain ⟨h1, t1, hht, hq⟩ := emitted_head sub1 hmem1
    have hc := hmem c (by simp)
    simp only [allowedEmit, List.mem_cons, List.not_mem_nil, or_false] at hc
    rcases hc with rfl | rfl | rfl | rfl | rfl | rfl | rfl
    · have hloop : patternToRegexLoop ('-' :: sub1) false =
          '-' :: patternToRegexLoop sub1 false := rfl
      rw [hloop] at hf ⊢
      rw [List.cons_append, hht]
      obtain ⟨f, rfl⟩ : ∃ k, fuel = k + 1 := ⟨fuel - 1, by simp at hf; omega⟩
      rw [parseRE_lit_step (by decide) (by decide) (by decide) (by decide)
        (by decide) (by decide) hq t1 f]
      rw [← hht]
      obtain ⟨r1, hr1⟩ := ih f hmem1 (by simp at hf; omega)
      rw [hr1]
      exact ⟨_, rfl⟩
    · have hloop : patternToRegexLoop ('0' :: sub1) false =
          '\\' :: 'd' :: patternToRegexLoop sub1 false := rfl
      rw [hloop] at hf ⊢
      rw [List.cons_append, List.cons_append, hht]
      obtain ⟨f, rfl⟩ : ∃ k, fuel = k + 1 := ⟨fuel - 1, by simp at hf; omega⟩
      rw [parseRE_esc_step (show escAtom 'd' = some RE.digit from rfl) hq t1 f]
      rw [← hht]
      obtain ⟨r1, hr1⟩ := ih f hmem1 (by simp at hf; omega)
      rw [hr1]
      exact ⟨_, rfl⟩
    · have hloop : patternToRegexLoop ('.' :: sub1) false =
          '\\' :: '.' :: patternToRegexLoop sub1 false := rfl
      rw [hloop] at hf ⊢
      rw [List.cons_append, List.cons_append, hht]
      obtain ⟨f, rfl⟩ : ∃ k, fuel = k + 1 := ⟨fuel - 1, by simp at hf; omega⟩
      rw [parseRE_esc_step (show escAtom '.' = some (RE.lit '.') from rfl) hq t1 f]
      rw [← hht]
      obtain ⟨r1, hr1⟩ := ih f hmem1 (by simp at hf; omega)
      rw [hr1]
      exact ⟨_, rfl⟩
    · have hloop : patternToRegexLoop (',' :: sub1) false =
          '\\' :: ',' :: patternToRegexLoop sub1 false := rfl
      rw [hloop] at hf ⊢
      rw [List.cons_append, List.cons_append, hht]
      obtain ⟨f, rfl⟩ : ∃ k, fuel = k + 1 := ⟨fuel - 1, by simp at hf; omega⟩
      rw [parseRE_esc_step (show escAtom ',' = some (RE.lit ',') from rfl) hq t1 f]
      rw [← hht]
      obtain ⟨r1, hr1⟩ := ih f hmem1 (by simp at hf; omega)
      rw [hr1]
      exact ⟨_, rfl⟩
    · have hloop : patternToRegexLoop ('#' :: sub1) false =
          '\\' :: 'd' :: '?' :: patternToRegexLoop sub1 false := rfl
      rw [hloop] at hf ⊢
      rw [List.cons_append, List.cons_append, List.cons_append]
      obtain ⟨f, rfl⟩ : ∃ k, fuel = k + 1 := ⟨fuel - 1, by simp at hf; omega⟩
      rw [parseRE_esc_opt_step (show escAtom 'd' = some RE.digit from rfl) _ f]
      obtain ⟨r1, hr1⟩ := ih f hmem1 (by simp at hf; omega)
      rw [hr1]
      exact ⟨_, rfl⟩
    · have hloop : patternToRegexLoop ('¤' :: sub1) false =
          '\\' :: '$' :: patternToRegexLoop sub1 false := rfl
      rw [hloop] at hf ⊢
      rw [List.cons_append, List.cons_append, hht]
      obtain ⟨f, rfl⟩ : ∃ k, fuel = k + 1 := ⟨fuel - 1, by simp at hf; omega⟩
      rw [parseRE_esc_step (show escAtom '$' = some (RE.lit '$') from rfl) hq t1 f]
      rw [← hht]
      obtain ⟨r1, hr1⟩ := ih f hmem1 (by simp at hf; omega)
      rw [hr1]
      exact ⟨_, rfl⟩
    · have hloop : patternToRegexLoop ('%' :: sub1) false =
          '%' :: patternToRegexLoop sub1 false := rfl
      rw [hloop] at hf ⊢
      rw [List.cons_append, hht]
      obtain ⟨f, rfl⟩ : ∃ k, fuel = k + 1 := ⟨fuel - 1, by simp at hf; omega⟩
      rw [parseRE_lit_step (by decide) (by decide) (by decide) (by decide)
        (by decide) (by decide) hq t1 f]
      rw [← hht]
      obtain ⟨r1, hr1⟩ := ih f hmem1 (by simp at hf; omega)
      rw [hr1]
      exact ⟨_, rfl⟩

/-- Model of `Regex::new` succeeds on the regex emitted for an `allowedEmit`
    pattern. -/
theorem regexCompile_emitted (sub : List Char) (hmem : ∀ c ∈ sub, c ∈ allowedEmit) :
    ∃ r, regexCompile (patternToRegex sub) = some r := by
  obtain ⟨r, hr⟩ := parse_emitted sub
    ((patternToRegexLoop sub false ++ ['$']).length + 1) hmem
    (by simp only [List.length_append, List.length_cons, List.length_nil]; omega)
  refine ⟨r, ?_⟩
  have h2 : patternToRegex sub = '^' :: (patternToRegexLoop sub false ++ ['$']) := rfl
  have h3 : regexCompile ('^' :: (patternToRegexLoop sub false ++ ['$'])) =
      (match parseRE ((patternToRegexLoop sub false ++ ['$']).length + 1)
        (patternToRegexLoop sub false ++ ['$']) with
      | some (r0, ['$']) => some r0
      | _ => none) := rfl
  rw [h2, h3, hr]
  rfl

theorem splitPatterns_invalid : ∀ (p : List Char) (inq : Bool) (cur : List Char)
    (done : List (List Char)), hasInvalidChar p inq = true →
    ∃ e, splitPatterns p inq cur done = Except.error e := by
  intro p
  induction p with
  | nil => intro inq cur done h; simp [hasInvalidChar] at h
  | cons c rest ih =>
    intro inq cur done h
    rw [hasInvalidChar] at h
    rw [splitPatterns]
    by_cases h1 : inq = false ∧ c = '\''
    · rw [if_pos h1] at h ⊢
      exact ih true (cur ++ [c]) done h
    · rw [if_neg h1] at h ⊢
      by_cases h2 : inq = true ∧ c = '\''
      · rw [if_pos h2] at h ⊢
        exact ih false (cur ++ [c]) done h
      · rw [if_neg h2] at h ⊢
        by_cases h3 : inq = false ∧ (specialChars.contains c) = false
        · rw [if_pos h3]
          exact ⟨_, rfl⟩
        · rw [if_neg h3] at h ⊢
          by_cases h4 : c = ';' ∧ inq = false
          · rw [if_pos h4]
            exact ih inq [] (done ++ [cur]) h
          · rw [if_neg h4]
            exact ih inq (cur ++ [c]) done h

theorem splitPatterns_ok_length : ∀ (p : List Char) (inq : Bool) (cur : List Char)
    (done : List (List Char)), hasInvalidChar p inq = false →
    ∃ pats, splitPatterns p inq cur done = Except.ok pats ∧
      pats.length = done.length + 1 + unquotedSemis p inq := by
  intro p
  induction p with
  | nil =>
    intro inq cur done _
    exact ⟨done ++ [cur], rfl, by simp [unquotedSemis]⟩
  | cons c rest ih =>
    intro inq cur done h
    rw [hasInvalidChar] at h
    rw [splitPatterns]
    by_cases h1 : inq = false ∧ c = '\''
    · rw [if_pos h1] at h ⊢
      obtain ⟨pats, hok, hlen⟩ := ih true (cur ++ [c]) done h
      refine ⟨pats, hok, ?_⟩
      rw [unquotedSemis, if_pos h1]
      exact hlen
    · rw [if_neg h1] at h ⊢
      by_cases h2 : inq = true ∧ c = '\''
      · rw [if_pos h2] at h ⊢
        obtain ⟨pats, hok, hlen⟩ := ih false (cur ++ [c]) done h
        refine ⟨pats, hok, ?_⟩
        rw [unquotedSemis, if_neg h1, if_pos h2]
        exact hlen
      · rw [if_neg h2] at h ⊢
        by_cases h3 : inq = false ∧ (specialChars.contains c) = false
        · rw [if_pos h3] at h
          cases h
        · rw [if_neg h3] at h ⊢
          by_cases h4 : c = ';' ∧ inq = false
          · rw [if_pos h4]
            obtain ⟨pats, hok, hlen⟩ := ih inq [] (done ++ [cur]) h
            refine ⟨pats, hok, ?_⟩
            rw [unquotedSemis, if_neg h1, if_neg h2, if_pos h4]
            simp only [List.length_append, List.length_cons, List.length_nil] at hlen
            omega
          · rw [if_neg h4]
            obtain ⟨pats, hok, hlen⟩ := ih inq (cur ++ [c]) done h
            refine ⟨pats, hok, ?_⟩
            rw [unquotedSemis, if_neg h1, if_neg h2, if_neg h4]
            exact hlen


/-- Inside a quoted section every character is copied verbatim into the
    emitted regex; the closing quote returns to translation mode. -/
theorem patternToRegexLoop_in_quotes : ∀ (p q : List Char), '\'' ∉ p →
    patternToRegexLoop (p ++ '\'' :: q) true = p ++ patternToRegexLoop q false := by
  intro p
  induction p with
  | nil =>
    intro q _
    rw [List.nil_append]
    simp [patternToRegexLoop]
  | cons c p1 ih =>
    intro q hq
    have hc : c ≠ '\'' := fun h => hq (by simp [h])
    rw [List.cons_append]
    simp [patternToRegexLoop, hc]
    exact ih q (fun h => hq (List.mem_cons_of_mem _ h))

/-- C4 (amended): a single quote toggles quoted mode and the characters of
    a quoted section are copied verbatim into the emitted regex with the
    quotes dropped — so quoted characters without a regex meta-meaning are
    matched literally (quoted regex metacharacters such as `.` keep their
    regex meaning, see the counterexample); in particular
    `"';#'##0"` emits `^;#\d?\d?\d$` and accepts `";#123"`. -/
theorem c4_amended_quoted_verbatim :
    (∀ (p q : List Char), '\'' ∉ p →
      patternToRegexLoop ('\'' :: (p ++ '\'' :: q)) false =
        p ++ patternToRegexLoop q false) ∧
    patternToRegex ("';#'##0".toList) = "^;#\\d?\\d?\\d$".toList ∧
    checkPat "';#'##0" ";#123" = true := by
  refine ⟨fun p q hp => ?_, by decide, by decide⟩
  have h1 : patternToRegexLoop ('\'' :: (p ++ '\'' :: q)) false =
      patternToRegexLoop (p ++ '\'' :: q) true := rfl
  rw [h1]
  exact patternToRegexLoop_in_quotes p q hp

/-- Witness for `c4_amended_quoted_verbatim` at the quoted section `;#`
    and the tail `##0`. -/
theorem c4_amended_quoted_verbatim_witness :
    ('\'' ∉ (";#".toList)) ∧
    patternToRegexLoop ('\'' :: (";#".toList ++ '\'' :: "##0".toList)) false =
      ";#".toList ++ patternToRegexLoop ("##0".toList) false :=
  ⟨by decide, c4_amended_quoted_verbatim.1 (";#".toList) ("##0".toList) (by decide)⟩

/-- C8 (amended): `DecimalFormat::new` returns a compilation error exactly
    when the pattern has an unquoted character outside the recognized set,
    or unquoted `;` splits it into three or more sub-patterns, or an
    emitted regex fails to compile (reachable, e.g. for `"("`); in
    particular every pattern whose `;`-split sub-patterns use only the
    characters `0 . , # ¤ %` compiles successfully. -/
theorem c8_amended_new_errors :
    (∀ p : List Char, hasInvalidChar p false = true →
      ∃ e, DecimalFormat.new p = Except.error e) ∧
    (∀ p : List Char, hasInvalidChar p false = false → 2 ≤ unquotedSemis p false →
      DecimalFormat.new p = Except.error "Invalid pattern") ∧
    (∀ (p : List Char) (f : DecimalFormat), DecimalFormat.new p = Except.ok f →
      hasInvalidChar p false = false ∧ unquotedSemis p false ≤ 1) ∧
    (∀ (p : List Char) (pats : List (List Char)),
      splitPatterns p false [] [] = Except.ok pats → pats.length ≤ 2 →
      (∀ sub ∈ pats, ∀ c ∈ sub, c ∈ ['0', '.', ',', '#', '¤', '%']) →
      (DecimalFormat.new p).isOk = true) := by
  refine ⟨?_, ?_, ?_, ?_⟩
  · intro p h
    obtain ⟨e, he⟩ := splitPatterns_invalid p false [] [] h
    refine ⟨e, ?_⟩
    unfold DecimalFormat.new
    rw [he]
  · intro p h hsem
    obtain ⟨pats, hok, hlen⟩ := splitPatterns_ok_length p false [] [] h
    unfold DecimalFormat.new
    rw [hok]
    dsimp only []
    rw [if_pos (by simp only [List.length_nil] at hlen; omega)]
  · intro p f hok
    have hinv : hasInvalidChar p false = false := by
      cases hinvv : hasInvalidChar p false with
      | false => rfl
      | true =>
        obtain ⟨e, he⟩ := splitPatterns_invalid p false [] [] hinvv
        unfold DecimalFormat.new at hok
        rw [he] at hok
        simp at hok
    refine ⟨hinv, ?_⟩
    by_contra hsem
    push_neg at hsem
    obtain ⟨pats, hsp, hlen⟩ := splitPatterns_ok_length p false [] [] hinv
    unfold DecimalFormat.new at hok
    rw [hsp] at hok
    dsimp only [] at hok
    rw [if_pos (by simp only [List.length_nil] at hlen; omega)] at hok
    cases hok
  · intro p pats hsplit hlen hsub
    unfold DecimalFormat.new
    rw [hsplit]
    dsimp only []
    rw [if_neg (by omega)]
    cases pats with
    | nil =>
      exfalso
      have hinv : hasInvalidChar p false = false := by
        cases hinvv : hasInvalidChar p false with
        | false => rfl
        | true =>
          obtain ⟨e, he⟩ := splitPatterns_invalid p false [] [] hinvv
          rw [he] at hsplit
          cases hsplit
      obtain ⟨pats2, hsp2, hlen2⟩ := splitPatterns_ok_length p false [] [] hinv
      rw [hsplit] at hsp2
      injection hsp2 with h5
      rw [← h5] at hlen2
      simp only [List.length_nil] at hlen2
      omega
    | cons pos rest =>
      dsimp only []
      have hposmem : ∀ c ∈ pos, c ∈ allowedEmit := by
        intro c hc
        have := hsub pos (by simp) c hc
        simp only [allowedEmit, List.mem_cons, List.not_mem_nil] at this ⊢
        tauto
      obtain ⟨rp, hrp⟩ := regexCompile_emitted pos hposmem
      rw [hrp]
      cases rest with
      | nil =>
        dsimp only []
        have hnegmem : ∀ c ∈ '-' :: pos, c ∈ allowedEmit := by
          intro c hc
          rcases List.mem_cons.mp hc with rfl | hc2
          · simp [allowedEmit]
          · exact hposmem c hc2
        obtain ⟨rn, hrn⟩ := regexCompile_emitted ('-' :: pos) hnegmem
        rw [hrn]
        rfl
      | cons neg rest2 =>
        dsimp only []
        have hnegmem : ∀ c ∈ '-' :: neg, c ∈ allowedEmit := by
          intro c hc
          rcases List.mem_cons.mp hc with rfl | hc2
          · simp [allowedEmit]
          · have := hsub neg (by simp) c hc2
            simp only [allowedEmit, List.mem_cons, List.not_mem_nil] at this ⊢
            tauto
        obtain ⟨rn, hrn⟩ := regexCompile_emitted ('-' :: neg) hnegmem
        rw [hrn]
        rfl

/-- Witness for `c8_amended_new_errors`: the pattern `"a"` has an invalid
    character and fails; the pattern `"0.#0"` is over the digit characters
    and compiles. -/
theorem c8_amended_new_errors_witness :
    (∃ e, DecimalFormat.new ("a".toList) = Except.error e) ∧
    (DecimalFormat.new ("0.#0".toList)).isOk = true :=
  ⟨c8_amended_new_errors.1 ("a".toList) (by decide),
   c8_amended_new_errors.2.2.2 ("0.#0".toList) ["0.#0".toList] (by rfl)
     (by decide) (by decide)⟩

end Rsapar
